import Mathlib

/-
Shallow embedding of `plot-latency.py`: a script that reads a CSV of
latency samples (timestamp index, `pid` and `delay` columns) and renders
either per-pid scatter plots or per-pid empirical CDF plots with
matplotlib.  Pure data computations (selection, group-by counts, pdf,
cumulative sum) are embedded as Lean functions; plotting calls are
embedded as records describing what was drawn and which axis settings
were applied; the save/show tail of the script is embedded as a list of
effects in program order.
-/

namespace PlotLatency

/-- One row of the loaded table: the parsed timestamp index, the `pid`
column and the `delay` column. -/
structure Row where
  time : Int
  pid : Int
  delay : Int
deriving DecidableEq, Repr

/-- The argparse result (script lines 22-40): `--cdf` is a boolean flag,
the rest are optional single-value options, and `pids` is the
one-or-more positional pid list. -/
structure Args where
  cdf : Bool
  title : Option String
  subtitle : Option String
  xlim : Option Int
  ylim : Option Int
  output : Option String
  pids : List Int
deriving DecidableEq, Repr

/-- Script line 53: `pid_data[p] = data.loc[data["pid"] == p, "delay"]` —
the `delay` column of the rows whose `pid` equals `p`, in table order. -/
def pid_data (data : List Row) (p : Int) : List Int :=
  (data.filter (fun r => r.pid == p)).map Row.delay

/-- Insert a value into an already ascending list, keeping it ascending. -/
def insertSorted (x : Int) : List Int → List Int
  | [] => [x]
  | y :: ys => if x ≤ y then x :: y :: ys else y :: insertSorted x ys

/-- Insertion sort on integer lists. -/
def sortInts : List Int → List Int
  | [] => []
  | x :: xs => insertSorted x (sortInts xs)

/-- The group keys produced by `groupby('delay')` (script line 81): the
distinct delay values in ascending order (pandas sorts group keys). -/
def groupKeys (l : List Int) : List Int := sortInts l.dedup

/-- Script lines 81-83: the `frequency` column of `stats_df` — for each
group key, the number of rows carrying that delay value. -/
def frequency (l : List Int) : List (Int × Nat) :=
  (groupKeys l).map (fun v => (v, l.count v))

/-- Script line 85: `sum(stats_df['frequency'])`, the denominator of the
pdf column. -/
def freqTotal (l : List Int) : Nat :=
  ((frequency l).map Prod.snd).sum

/-- Script line 85: `stats_df['pdf'] = stats_df['frequency'] /
sum(stats_df['frequency'])`. -/
def pdfCol (l : List Int) : List (Int × ℚ) :=
  (frequency l).map (fun vc => (vc.1, (vc.2 : ℚ) / (freqTotal l : ℚ)))

/-- Running cumulative sum starting from `acc` (pandas `cumsum`). -/
def cumsumFrom (acc : ℚ) : List ℚ → List ℚ
  | [] => []
  | x :: xs => (acc + x) :: cumsumFrom (acc + x) xs

/-- Script line 87: `stats_df['cdf'] = stats_df['pdf'].cumsum()`. -/
def cdfCol (l : List Int) : List ℚ :=
  cumsumFrom 0 ((pdfCol l).map Prod.snd)

/-- Script line 90: `stats_df.plot(x = 'delay', y = 'cdf', ...)` — the
plotted point list pairs each group key with its cdf value. -/
def cdfSeries (l : List Int) : List (Int × ℚ) :=
  (groupKeys l).zip (cdfCol l)

/-- An axis range: matplotlib's data-driven autoscaling, or the fixed
range `[lo, hi]` installed by `set_xlim`/`set_ylim`. -/
inductive AxisRange where
  | auto : AxisRange
  | fixed : Int → Int → AxisRange
deriving DecidableEq, Repr

/-- Script lines 97-100 and 113-116: `set_xlim(0, args.xlim[0])` (resp.
ylim) when the option is present, otherwise the default autoscaling. -/
def limitRange (opt : Option Int) : AxisRange :=
  match opt with
  | some n => AxisRange.fixed 0 n
  | none => AxisRange.auto

/-- What the distribution-mode routine draws on one axes. -/
structure CdfPlot where
  points : List (Int × ℚ)
  xlabel : String
  percentYTicks : Bool
  xRange : AxisRange
  yRange : AxisRange
deriving DecidableEq, Repr

/-- Script lines 79-100, `plot_cdf(p, a)`: line 81 reselects
`data.loc[data["pid"] == p]` (the same selection as `pid_data[p]`),
groups it by delay and counts, line 85 normalizes by the frequency sum,
line 87 cumulative-sums, line 90 plots cdf against delay, line 91 sets
the x label, line 95 formats every y tick label with `'\x7b:,.2%\x7d'`
(a percentage), lines 97-100 apply the optional limits. -/
def plot_cdf (args : Args) (data : List Row) (p : Int) : CdfPlot :=
  { points := cdfSeries (pid_data data p)
    xlabel := "latency (µs)"
    percentYTicks := true
    xRange := limitRange args.xlim
    yRange := limitRange args.ylim }

/-- What the raster-mode routine draws on one axes. -/
structure RasterPlot where
  points : List (Int × Int)
  marker : String
  linestyle : String
  ylabel : String
  xlabel : String
  title : String
  xRange : AxisRange
  yRange : AxisRange
deriving DecidableEq, Repr

/-- Script lines 103-116, `plot_plot(a)`: plots the series
`pid_data[p]` (delay indexed by timestamp) as unconnected dots, labels
the axes, titles the subplot with `--subtitle` when given and
`"pid=<p>"` otherwise, and applies the optional limits. -/
def plot_plot (args : Args) (data : List Row) (p : Int) : RasterPlot :=
  { points := (data.filter (fun r => r.pid == p)).map (fun r => (r.time, r.delay))
    marker := "."
    linestyle := "None"
    ylabel := "latency (µs)"
    xlabel := "Time"
    title := match args.subtitle with
      | some s => s
      | none => "pid=" ++ toString p
    xRange := limitRange args.xlim
    yRange := limitRange args.ylim }

/-- The rendering performed on one subplot: exactly one of the two
routines. -/
inductive AxisRender where
  | cdfRender : CdfPlot → AxisRender
  | rasterRender : RasterPlot → AxisRender
deriving DecidableEq, Repr

/-- Script lines 121-125, `do_plot(p, a)`: dispatch on the `--cdf`
flag. -/
def do_plot (args : Args) (data : List Row) (p : Int) : AxisRender :=
  if args.cdf then AxisRender.cdfRender (plot_cdf args data p)
  else AxisRender.rasterRender (plot_plot args data p)

/-- True exactly when the render is the distribution routine. -/
def AxisRender.isCdfRender : AxisRender → Bool
  | AxisRender.cdfRender _ => true
  | AxisRender.rasterRender _ => false

/-- True exactly when the render is the raster routine. -/
def AxisRender.isRasterRender : AxisRender → Bool
  | AxisRender.cdfRender _ => false
  | AxisRender.rasterRender _ => true

/-- The figure created by `plt.subplots` (script lines 59-62): a 2×2
grid when exactly 4 pids were requested, otherwise a single column with
one row per pid. -/
inductive Layout where
  | grid22 : Layout
  | column : Nat → Layout
deriving DecidableEq, Repr

/-- Script lines 59-62. -/
def makeLayout (n : Nat) : Layout :=
  if n = 4 then Layout.grid22 else Layout.column n

/-- The axes a subplot is drawn on: `ax` itself when `plt.subplots(1, 1)`
returned a single axes, `ax[row]` in a column figure, `ax[row][col]` in
the 2×2 figure. -/
inductive AxesPos where
  | single : AxesPos
  | col : Nat → AxesPos
  | grid : Nat → Nat → AxesPos
deriving DecidableEq, Repr

/-- Whether an axes position exists in a created layout:
`plt.subplots(1, 1)` yields one bare axes, `plt.subplots(n, 1)` for
`n ≥ 2` yields a length-`n` array, `plt.subplots(2, 2)` a 2×2 array. -/
def posInLayout : Layout → AxesPos → Bool
  | Layout.grid22, AxesPos.grid r c => decide (r < 2) && decide (c < 2)
  | Layout.column n, AxesPos.single => n == 1
  | Layout.column n, AxesPos.col r => decide (2 ≤ n) && decide (r < n)
  | _, _ => false

/-- The subplot-selection loop (script lines 127-139) with its `row` and
`col` state: for 4 pids it walks the 2×2 grid row-major
(`col = (col+1)%2`, advancing `row` when `col` wraps); for more than one
pid it walks the column; for one pid it uses the bare axes. -/
def assignLoop (n : Nat) : List Int → Nat → Nat → List (Int × AxesPos)
  | [], _, _ => []
  | p :: rest, row, c =>
    if n = 4 then
      let a := AxesPos.grid row c
      let c2 := (c + 1) % 2
      let row2 := if c2 = 0 then row + 1 else row
      (p, a) :: assignLoop n rest row2 c2
    else if 1 < n then
      (p, AxesPos.col row) :: assignLoop n rest (row + 1) c
    else
      (p, AxesPos.single) :: assignLoop n rest (row + 1) c

/-- The axes assigned to each requested pid, in argument order. -/
def assignAxes (pids : List Int) : List (Int × AxesPos) :=
  assignLoop pids.length pids 0 0

/-- Observable output-stage actions of the script. -/
inductive Effect where
  | saveFig : String → Effect
  | showFig : Effect
deriving DecidableEq, Repr

/-- Script lines 143-146: `fig.savefig(args.output[0])` when `--output`
was given, then `plt.show()` unconditionally. -/
def outputEffects (output : Option String) : List Effect :=
  (match output with
   | some path => [Effect.saveFig path]
   | none => []) ++ [Effect.showFig]

/-- The empirical CDF series as the spec describes it: per delay value,
the count of that pid's rows carrying the value, normalized by the total
number of that pid's rows, cumulative-summed in ascending delay order.
(The code instead normalizes by the sum of the per-value counts; the
refinement theorem shows the two agree.) -/
def cdfSpecSeries (data : List Row) (p : Int) : List (Int × ℚ) :=
  (groupKeys (pid_data data p)).zip
    (cumsumFrom 0 ((groupKeys (pid_data data p)).map
      (fun v => ((pid_data data p).count v : ℚ) / ((pid_data data p).length : ℚ))))

/-- Sample table used by concrete witnesses. -/
def sampleData : List Row :=
  [⟨0, 1, 5⟩, ⟨1, 1, 5⟩, ⟨2, 1, 7⟩, ⟨3, 2, 9⟩]

/-- Sample argument record used by concrete witnesses. -/
def sampleArgs : Args :=
  { cdf := false, title := none, subtitle := none, xlim := none,
    ylim := none, output := none, pids := [1] }

namespace Csv

/-- A loaded CSV table as `pd.read_csv` produces it: a header naming the
non-index columns and one integer list per data row.  Any such table is
accepted by the loader; missing columns surface only later, when the
script subscripts the frame. -/
structure Table where
  header : List String
  rows : List (List Int)
deriving DecidableEq, Repr

/-- A failure raised by the script after the table loaded. -/
inductive PlotErr where
  | keyError : String → PlotErr
deriving DecidableEq, Repr

/-- Position of a column name in the header, if present. -/
def colIndex (c : String) : List String → Option Nat
  | [] => none
  | h :: hs => if h = c then some 0 else (colIndex c hs).map (· + 1)

/-- `data["name"]`: the named column, or the `KeyError` pandas raises
when the loaded frame has no such column. -/
def getCol (t : Table) (c : String) : Except PlotErr (List Int) :=
  match colIndex c t.header with
  | none => Except.error (PlotErr.keyError c)
  | some i => Except.ok (t.rows.map (fun r => r.getD i 0))

/-- `data.loc[data["pid"] == p, "delay"]` over the loaded table: both
column subscripts can raise `KeyError`. -/
def seriesFor (t : Table) (p : Int) : Except PlotErr (List Int) :=
  match getCol t "pid" with
  | Except.error e => Except.error e
  | Except.ok pidsCol =>
    match getCol t "delay" with
    | Except.error e => Except.error e
    | Except.ok delayCol =>
      Except.ok (((pidsCol.zip delayCol).filter (fun q => q.1 == p)).map Prod.snd)

/-- The post-load pipeline over the requested pids: select each pid's
series in turn, propagating the first failure. -/
def program (t : Table) : List Int → Except PlotErr (List (List Int))
  | [] => Except.ok []
  | p :: rest =>
    match seriesFor t p with
    | Except.error e => Except.error e
    | Except.ok s =>
      match program t rest with
      | Except.error e => Except.error e
      | Except.ok l => Except.ok (s :: l)

/-- Whether an `Except` computation succeeded. -/
def isOkE {α : Type} : Except PlotErr α → Bool
  | Except.ok _ => true
  | Except.error _ => false

/-- A loader-accepted table that has a `delay` column but no `pid`
column. -/
def noPidTable : Table :=
  { header := ["delay"], rows := [[5]] }

/-- A loader-accepted table carrying both required columns. -/
def okTable : Table :=
  { header := ["pid", "delay"], rows := [[1, 5], [2, 9]] }

end Csv

/-- Argument record with both limits set, used by concrete witnesses. -/
def argsLim : Args :=
  { cdf := false, title := none, subtitle := some "srv", xlim := some 10,
    ylim := some 20, output := none, pids := [1] }

theorem insertSorted_perm (x : Int) (l : List Int) :
    List.Perm (insertSorted x l) (x :: l) := by
  induction l with
  | nil => exact List.Perm.refl _
  | cons y ys ih =>
    by_cases h : x ≤ y
    · simp only [insertSorted, if_pos h]
      exact List.Perm.refl _
    · simp only [insertSorted, if_neg h]
      exact (ih.cons y).trans (List.Perm.swap x y ys)

theorem sortInts_perm (l : List Int) : List.Perm (sortInts l) l := by
  induction l with
  | nil => exact List.Perm.refl _
  | cons x xs ih =>
    simp only [sortInts]
    exact (insertSorted_perm x (sortInts xs)).trans (ih.cons x)

theorem insertSorted_sorted (x : Int) (l : List Int) (h : l.Sorted (· ≤ ·)) :
    (insertSorted x l).Sorted (· ≤ ·) := by
  induction l with
  | nil => simp [insertSorted]
  | cons y ys ih =>
    rw [List.sorted_cons] at h
    by_cases hxy : x ≤ y
    · simp only [insertSorted, if_pos hxy]
      rw [List.sorted_cons]
      refine ⟨fun b hb => ?_, ?_⟩
      · rcases List.mem_cons.mp hb with rfl | hb2
        · exact hxy
        · exact le_trans hxy (h.1 b hb2)
      · rw [List.sorted_cons]
        exact h
    · simp only [insertSorted, if_neg hxy]
      rw [List.sorted_cons]
      refine ⟨fun b hb => ?_, ih h.2⟩
      have hb2 : b ∈ x :: ys := (insertSorted_perm x ys).mem_iff.mp hb
      rcases List.mem_cons.mp hb2 with rfl | hb3
      · exact le_of_not_le hxy
      · exact h.1 b hb3

theorem sortInts_sorted (l : List Int) : (sortInts l).Sorted (· ≤ ·) := by
  induction l with
  | nil => simp [sortInts]
  | cons x xs ih => exact insertSorted_sorted x _ ih

theorem groupKeys_perm (l : List Int) : List.Perm (groupKeys l) l.dedup :=
  sortInts_perm _

theorem groupKeys_nodup (l : List Int) : (groupKeys l).Nodup :=
  (groupKeys_perm l).nodup_iff.mpr l.nodup_dedup

theorem groupKeys_sorted_le (l : List Int) : (groupKeys l).Sorted (· ≤ ·) :=
  sortInts_sorted _

theorem groupKeys_sorted_lt (l : List Int) : (groupKeys l).Sorted (· < ·) :=
  (groupKeys_sorted_le l).lt_of_le (groupKeys_nodup l)

theorem mem_groupKeys (l : List Int) (v : Int) : v ∈ groupKeys l ↔ v ∈ l :=
  ((groupKeys_perm l).mem_iff).trans List.mem_dedup

theorem groupKeys_ne_nil (l : List Int) (h : l ≠ []) : groupKeys l ≠ [] := by
  intro hk
  apply h
  have hperm : List.Perm l.dedup ([] : List Int) := by
    have := (groupKeys_perm l).symm
    rw [hk] at this
    exact this
  exact (List.dedup_eq_nil l).mp hperm.eq_nil

theorem freqTotal_eq_sum (l : List Int) :
    freqTotal l = ((groupKeys l).map (fun v => l.count v)).sum := by
  simp [freqTotal, frequency, List.map_map, Function.comp_def]

theorem freqTotal_eq_length (l : List Int) : freqTotal l = l.length := by
  have h2 : List.Perm ((groupKeys l).map (fun v => l.count v)) (l.dedup.map (fun v => l.count v)) :=
    (groupKeys_perm l).map _
  rw [freqTotal_eq_sum, h2.sum_eq]
  exact List.sum_map_count_dedup_eq_length l

theorem sum_map_div (xs : List Int) (f : Int → ℚ) (c : ℚ) :
    (xs.map (fun v => f v / c)).sum = (xs.map f).sum / c := by
  induction xs with
  | nil => simp
  | cons x l ih => simp [ih, div_add_div_same]

theorem pdfVals_eq (l : List Int) :
    (pdfCol l).map Prod.snd
      = (groupKeys l).map (fun v => (l.count v : ℚ) / (freqTotal l : ℚ)) := by
  simp [pdfCol, frequency, List.map_map, Function.comp_def]

theorem pdfVals_sum (l : List Int) (h : l ≠ []) :
    ((pdfCol l).map Prod.snd).sum = 1 := by
  rw [pdfVals_eq, sum_map_div]
  have hT : ((groupKeys l).map (fun v => ((l.count v : ℕ) : ℚ))).sum
      = ((freqTotal l : ℕ) : ℚ) := by
    rw [freqTotal_eq_sum, Nat.cast_list_sum, List.map_map]
    simp [Function.comp_def]
  rw [hT]
  have hlen : l.length ≠ 0 := fun hl => h (List.length_eq_zero.mp hl)
  have hne : ((freqTotal l : ℕ) : ℚ) ≠ 0 := by
    rw [freqTotal_eq_length]
    exact Nat.cast_ne_zero.mpr hlen
  exact div_self hne

theorem pdfVals_pos (l : List Int) (h : l ≠ []) :
    ∀ q ∈ (pdfCol l).map Prod.snd, 0 < q := by
  rw [pdfVals_eq]
  intro q hq
  rcases List.mem_map.mp hq with ⟨v, hv, rfl⟩
  have hvl : v ∈ l := (mem_groupKeys l v).mp hv
  have hc : 0 < l.count v := List.count_pos_iff.mpr hvl
  apply div_pos
  · exact_mod_cast hc
  · rw [freqTotal_eq_length]
    have hlen : 0 < l.length := List.length_pos.mpr h
    exact_mod_cast hlen

theorem pdfVals_ne_nil (l : List Int) (h : l ≠ []) :
    (pdfCol l).map Prod.snd ≠ [] := by
  rw [pdfVals_eq]
  intro hmap
  exact groupKeys_ne_nil l h (List.map_eq_nil_iff.mp hmap)

theorem cumsumFrom_length (a : ℚ) (l : List ℚ) :
    (cumsumFrom a l).length = l.length := by
  induction l generalizing a with
  | nil => rfl
  | cons x xs ih => simp [cumsumFrom, ih]

theorem cumsumFrom_getLast (a : ℚ) (l : List ℚ) (h : l ≠ []) :
    (cumsumFrom a l).getLast? = some (a + l.sum) := by
  induction l generalizing a with
  | nil => exact absurd rfl h
  | cons x xs ih =>
    cases xs with
    | nil => simp [cumsumFrom]
    | cons y ys =>
      rw [show cumsumFrom a (x :: y :: ys)
            = (a + x) :: (a + x + y) :: cumsumFrom (a + x + y) ys from rfl,
          List.getLast?_cons_cons,
          show (a + x + y) :: cumsumFrom (a + x + y) ys
            = cumsumFrom (a + x) (y :: ys) from rfl,
          ih (a + x) (by simp)]
      congr 1
      simp only [List.sum_cons]
      ring

theorem cumsumFrom_mem_gt (a : ℚ) (l : List ℚ) (hpos : ∀ x ∈ l, 0 < x) :
    ∀ q ∈ cumsumFrom a l, a < q := by
  induction l generalizing a with
  | nil => intro q hq; simp [cumsumFrom] at hq
  | cons x xs ih =>
    intro q hq
    rw [show cumsumFrom a (x :: xs) = (a + x) :: cumsumFrom (a + x) xs from rfl] at hq
    have hx : 0 < x := hpos x (List.mem_cons_self x xs)
    rcases List.mem_cons.mp hq with rfl | hq2
    · linarith
    · have := ih (a + x) (fun y hy => hpos y (List.mem_cons_of_mem x hy)) q hq2
      linarith

theorem cumsumFrom_mem_le (a : ℚ) (l : List ℚ) (hpos : ∀ x ∈ l, 0 < x) :
    ∀ q ∈ cumsumFrom a l, q ≤ a + l.sum := by
  induction l generalizing a with
  | nil => intro q hq; simp [cumsumFrom] at hq
  | cons x xs ih =>
    intro q hq
    rw [show cumsumFrom a (x :: xs) = (a + x) :: cumsumFrom (a + x) xs from rfl] at hq
    have hs : 0 ≤ xs.sum :=
      List.sum_nonneg (fun y hy => le_of_lt (hpos y (List.mem_cons_of_mem x hy)))
    rcases List.mem_cons.mp hq with rfl | hq2
    · simp only [List.sum_cons]
      linarith
    · have := ih (a + x) (fun y hy => hpos y (List.mem_cons_of_mem x hy)) q hq2
      simp only [List.sum_cons]
      linarith

theorem cumsumFrom_sorted_lt (a : ℚ) (l : List ℚ) (hpos : ∀ x ∈ l, 0 < x) :
    (cumsumFrom a l).Sorted (· < ·) := by
  induction l generalizing a with
  | nil => simp [cumsumFrom]
  | cons x xs ih =>
    rw [show cumsumFrom a (x :: xs) = (a + x) :: cumsumFrom (a + x) xs from rfl,
        List.sorted_cons]
    have htail : ∀ y ∈ xs, 0 < y := fun y hy => hpos y (List.mem_cons_of_mem x hy)
    exact ⟨fun b hb => cumsumFrom_mem_gt (a + x) xs htail b hb, ih (a + x) htail⟩

theorem cdfCol_length (l : List Int) :
    (cdfCol l).length = (groupKeys l).length := by
  simp [cdfCol, cumsumFrom_length, pdfCol, frequency]

theorem cdfSeries_map_fst (l : List Int) :
    (cdfSeries l).map Prod.fst = groupKeys l := by
  apply List.map_fst_zip
  exact le_of_eq (cdfCol_length l).symm

theorem cdfSeries_map_snd (l : List Int) :
    (cdfSeries l).map Prod.snd = cdfCol l := by
  apply List.map_snd_zip
  exact le_of_eq (cdfCol_length l)

theorem cdf_points_refine (data : List Row) (p : Int) :
    cdfSeries (pid_data data p) = cdfSpecSeries data p := by
  unfold cdfSeries cdfSpecSeries cdfCol
  rw [pdfVals_eq, freqTotal_eq_length]

theorem assignLoop_column (n : Nat) (hn4 : n ≠ 4) (hn1 : 1 < n) (ps : List Int) :
    ∀ r c : Nat, assignLoop n ps r c
      = (ps.enumFrom r).map (fun ic => (ic.2, AxesPos.col ic.1)) := by
  induction ps with
  | nil => intro r c; rfl
  | cons p rest ih =>
    intro r c
    have hstep : assignLoop n (p :: rest) r c
        = (p, AxesPos.col r) :: assignLoop n rest (r + 1) c := by
      simp [assignLoop, hn4, hn1]
    rw [hstep, ih (r + 1) c]
    rfl

theorem enumFrom_fst_lt {α : Type} (ps : List α) :
    ∀ r : Nat, ∀ q ∈ ps.enumFrom r, q.1 < r + ps.length := by
  induction ps with
  | nil => intro r q hq; simp [List.enumFrom] at hq
  | cons x xs ih =>
    intro r q hq
    rw [show (x :: xs).enumFrom r = (r, x) :: xs.enumFrom (r + 1) from rfl] at hq
    rcases List.mem_cons.mp hq with rfl | hq2
    · simp only [List.length_cons]
      omega
    · have := ih (r + 1) q hq2
      simp only [List.length_cons]
      omega

namespace Csv

theorem colIndex_eq_none_iff (c : String) (hs : List String) :
    colIndex c hs = none ↔ c ∉ hs := by
  induction hs with
  | nil => simp [colIndex]
  | cons h t ih =>
    by_cases hc : h = c
    · simp [colIndex, hc]
    · simp only [colIndex, if_neg hc, Option.map_eq_none', ih, List.mem_cons]
      constructor
      · intro hnt hor
        rcases hor with heq | hmem
        · exact hc heq.symm
        · exact hnt hmem
      · intro hnc hmem
        exact hnc (Or.inr hmem)

theorem getCol_ok_iff (t : Table) (c : String) :
    isOkE (getCol t c) = true ↔ c ∈ t.header := by
  unfold getCol
  cases hco : colIndex c t.header with
  | none =>
    have hmem : c ∉ t.header := (colIndex_eq_none_iff c t.header).mp hco
    simp [isOkE, hmem]
  | some i =>
    have hmem : c ∈ t.header := by
      by_contra hnm
      rw [(colIndex_eq_none_iff c t.header).mpr hnm] at hco
      simp at hco
    simp [isOkE, hmem]

theorem getCol_err (t : Table) (c : String) (e : PlotErr) :
    getCol t c = Except.error e → e = PlotErr.keyError c := by
  unfold getCol
  cases colIndex c t.header with
  | none =>
    intro h
    injection h with h2
    exact h2.symm
  | some i =>
    intro h
    exact Except.noConfusion h

theorem seriesFor_ok_iff (t : Table) (p : Int) :
    isOkE (seriesFor t p) = true ↔ ("pid" ∈ t.header ∧ "delay" ∈ t.header) := by
  unfold seriesFor
  cases h1 : getCol t "pid" with
  | error e =>
    have hp : "pid" ∉ t.header := by
      intro hm
      have := (getCol_ok_iff t "pid").mpr hm
      rw [h1] at this
      simp [isOkE] at this
    simp [isOkE, hp]
  | ok pc =>
    have hp : "pid" ∈ t.header := (getCol_ok_iff t "pid").mp (by rw [h1]; rfl)
    cases h2 : getCol t "delay" with
    | error e =>
      have hd : "delay" ∉ t.header := by
        intro hm
        have := (getCol_ok_iff t "delay").mpr hm
        rw [h2] at this
        simp [isOkE] at this
      simp [isOkE, hp, hd]
    | ok dc =>
      have hd : "delay" ∈ t.header := (getCol_ok_iff t "delay").mp (by rw [h2]; rfl)
      simp [isOkE, hp, hd]

theorem seriesFor_err (t : Table) (p : Int) (e : PlotErr) :
    seriesFor t p = Except.error e →
    e = PlotErr.keyError "pid" ∨ e = PlotErr.keyError "delay" := by
  unfold seriesFor
  cases h1 : getCol t "pid" with
  | error e1 =>
    intro h
    injection h with h2
    exact Or.inl (h2 ▸ getCol_err t "pid" e1 h1)
  | ok pc =>
    cases h2 : getCol t "delay" with
    | error e2 =>
      intro h
      injection h with h3
      exact Or.inr (h3 ▸ getCol_err t "delay" e2 h2)
    | ok dc =>
      intro h
      exact Except.noConfusion h

theorem program_cons (t : Table) (p : Int) (rest : List Int) :
    program t (p :: rest)
      = match seriesFor t p with
        | Except.error e => Except.error e
        | Except.ok s =>
          match program t rest with
          | Except.error e => Except.error e
          | Except.ok l => Except.ok (s :: l) := rfl

theorem program_ok_iff (t : Table) (pids : List Int) (h : pids ≠ []) :
    isOkE (program t pids) = true ↔ ("pid" ∈ t.header ∧ "delay" ∈ t.header) := by
  induction pids with
  | nil => exact absurd rfl h
  | cons p rest ih =>
    cases hs : seriesFor t p with
    | error e =>
      have hcols : ¬("pid" ∈ t.header ∧ "delay" ∈ t.header) := by
        intro hc
        have := (seriesFor_ok_iff t p).mpr hc
        rw [hs] at this
        simp [isOkE] at this
      simp [program, hs, isOkE, hcols]
    | ok s =>
      have hcols : "pid" ∈ t.header ∧ "delay" ∈ t.header :=
        (seriesFor_ok_iff t p).mp (by rw [hs]; rfl)
      cases rest with
      | nil => simp [program, hs, isOkE, hcols]
      | cons q qs =>
        cases hr : program t (q :: qs) with
        | error e =>
          have hok := (ih (by simp)).mpr hcols
          rw [hr] at hok
          simp [isOkE] at hok
        | ok l =>
          rw [program_cons, hs, hr]
          simp [isOkE, hcols.1, hcols.2]

theorem program_err_key (t : Table) (pids : List Int) :
    ∀ e : PlotErr, program t pids = Except.error e →
    e = PlotErr.keyError "pid" ∨ e = PlotErr.keyError "delay" := by
  induction pids with
  | nil => intro e h; simp [program] at h
  | cons p rest ih =>
    intro e h
    cases hs : seriesFor t p with
    | error e2 =>
      rw [program_cons, hs] at h
      injection h with h2
      exact h2 ▸ seriesFor_err t p e2 hs
    | ok s =>
      rw [program_cons, hs] at h
      cases hr : program t rest with
      | error e3 =>
        rw [hr] at h
        injection h with h3
        exact h3 ▸ ih e3 hr
      | ok l =>
        rw [hr] at h
        exact Except.noConfusion h

end Csv

/-- Claim C1: in distribution mode, for each requested pid the program
groups that pid's rows by discrete delay value, counts occurrences per
value, normalizes each count by the total number of that pid's rows to
get a frequency, cumulative-sums those frequencies in ascending delay
order into the empirical CDF, and plots the CDF against the delay value
with the y-axis tick labels formatted as percentages.  The code divides
by the sum of the per-value counts; the theorem shows this equals the
spec's normalization by the pid's row count. -/
theorem claim1_cdf_mode_refines_spec (args : Args) (data : List Row) (p : Int) :
    (plot_cdf args data p).points = cdfSpecSeries data p ∧
    (plot_cdf args data p).percentYTicks = true ∧
    (plot_cdf args data p).xlabel = "latency (µs)" :=
  ⟨cdf_points_refine data p, rfl, rfl⟩

/-- Claim C2: for every requested pid `p`, the working series is exactly
the `delay` column of the rows whose `pid` equals `p`, in table order: a
row with `pid = p` inserted anywhere contributes exactly its delay at
that position, and a row with any other pid contributes nothing. -/
theorem claim2_pid_partition (p : Int) :
    (∀ data : List Row,
      pid_data data p = (data.filter (fun r => r.pid == p)).map Row.delay) ∧
    (∀ xs ys : List Row, ∀ r : Row, r.pid = p →
      pid_data (xs ++ r :: ys) p = pid_data xs p ++ r.delay :: pid_data ys p) ∧
    (∀ xs ys : List Row, ∀ r : Row, r.pid ≠ p →
      pid_data (xs ++ r :: ys) p = pid_data (xs ++ ys) p) := by
  refine ⟨fun data => rfl, fun xs ys r hr => ?_, fun xs ys r hr => ?_⟩
  · simp [pid_data, List.filter_append, List.filter_cons, hr]
  · simp [pid_data, List.filter_append, List.filter_cons, hr]

/-- Concrete instantiation of the partition claim: a matching row adds
its delay, a non-matching row adds nothing. -/
theorem claim2_pid_partition_witness :
    ((Row.mk 9 1 42).pid = 1 ∧
      pid_data ([Row.mk 0 2 7] ++ Row.mk 9 1 42 :: []) 1
        = pid_data [Row.mk 0 2 7] 1 ++ (Row.mk 9 1 42).delay :: pid_data [] 1) ∧
    ((Row.mk 9 3 42).pid ≠ 1 ∧
      pid_data ([Row.mk 0 2 7] ++ Row.mk 9 3 42 :: []) 1
        = pid_data ([Row.mk 0 2 7] ++ []) 1) :=
  ⟨⟨rfl, (claim2_pid_partition 1).2.1 [Row.mk 0 2 7] [] (Row.mk 9 1 42) rfl⟩,
   ⟨by decide, (claim2_pid_partition 1).2.2 [Row.mk 0 2 7] [] (Row.mk 9 3 42) (by decide)⟩⟩

/-- Claim C3: 1 pid yields the single bare axes; 2 or 3 pids yield a
single column of stacked axes filled top to bottom in argument order;
exactly 4 pids yield the 2×2 grid filled row-major. -/
theorem claim3_subplot_layout :
    makeLayout 1 = Layout.column 1 ∧
    makeLayout 2 = Layout.column 2 ∧
    makeLayout 3 = Layout.column 3 ∧
    makeLayout 4 = Layout.grid22 ∧
    (∀ p1 : Int, assignAxes [p1] = [(p1, AxesPos.single)]) ∧
    (∀ p1 p2 : Int,
      assignAxes [p1, p2] = [(p1, AxesPos.col 0), (p2, AxesPos.col 1)]) ∧
    (∀ p1 p2 p3 : Int,
      assignAxes [p1, p2, p3]
        = [(p1, AxesPos.col 0), (p2, AxesPos.col 1), (p3, AxesPos.col 2)]) ∧
    (∀ p1 p2 p3 p4 : Int,
      assignAxes [p1, p2, p3, p4]
        = [(p1, AxesPos.grid 0 0), (p2, AxesPos.grid 0 1),
           (p3, AxesPos.grid 1 0), (p4, AxesPos.grid 1 1)]) :=
  ⟨rfl, rfl, rfl, rfl, fun _ => rfl, fun _ _ => rfl, fun _ _ _ => rfl,
   fun _ _ _ _ => rfl⟩

/-- Counterexample to claim C4 as stated: for 5 requested pids the
program produces a perfectly defined layout — a single column of 5
stacked axes — and every pid is assigned an axes that exists in the
created figure. -/
theorem claim4_counterexample :
    4 < ([1, 2, 3, 4, 5] : List Int).length ∧
    assignAxes [1, 2, 3, 4, 5]
      = [((1 : Int), AxesPos.col 0), (2, AxesPos.col 1), (3, AxesPos.col 2),
         (4, AxesPos.col 3), (5, AxesPos.col 4)] ∧
    (assignAxes [1, 2, 3, 4, 5]).all
      (fun pa => posInLayout (makeLayout ([1, 2, 3, 4, 5] : List Int).length) pa.2)
      = true :=
  ⟨by decide, rfl, by decide⟩

/-- Claim C4 (amended): when more than 4 pids are requested the program
does produce a defined layout — the same single column of stacked axes
as the 2-3 case, filled top to bottom in argument order, with every
assigned axes present in the created figure. -/
theorem claim4_more_than_four_pids_column (pids : List Int)
    (h : 4 < pids.length) :
    assignAxes pids = (pids.enumFrom 0).map (fun ic => (ic.2, AxesPos.col ic.1)) ∧
    (assignAxes pids).all
      (fun pa => posInLayout (makeLayout pids.length) pa.2) = true := by
  have hn4 : pids.length ≠ 4 := by omega
  have hn1 : 1 < pids.length := by omega
  have hassign := assignLoop_column pids.length hn4 hn1 pids 0 0
  constructor
  · exact hassign
  · rw [assignAxes, hassign, List.all_eq_true]
    intro pa hpa
    rcases List.mem_map.mp hpa with ⟨ic, hic, rfl⟩
    have hlt : ic.1 < 0 + pids.length := enumFrom_fst_lt pids 0 ic hic
    have hcol : makeLayout pids.length = Layout.column pids.length := by
      simp [makeLayout, hn4]
    rw [hcol]
    simp only [posInLayout, Bool.and_eq_true, decide_eq_true_eq]
    exact ⟨by omega, by omega⟩

/-- Concrete instantiation of the amended C4 at six pids. -/
theorem claim4_more_than_four_pids_column_witness :
    4 < ([1, 2, 3, 4, 5, 6] : List Int).length ∧
    (assignAxes [1, 2, 3, 4, 5, 6]
        = (([1, 2, 3, 4, 5, 6] : List Int).enumFrom 0).map
            (fun ic => (ic.2, AxesPos.col ic.1)) ∧
      (assignAxes [1, 2, 3, 4, 5, 6]).all
        (fun pa =>
          posInLayout (makeLayout ([1, 2, 3, 4, 5, 6] : List Int).length) pa.2)
        = true) :=
  ⟨by decide, claim4_more_than_four_pids_column [1, 2, 3, 4, 5, 6] (by decide)⟩

/-- Counterexample to claim C5 as stated: a table the loader accepts (it
is a well-formed CSV, merely lacking a `pid` column) on which the
program itself fails after loading, with a `KeyError` raised by the
column subscript rather than an error propagated from `pd.read_csv`. -/
theorem claim5_counterexample :
    Csv.program Csv.noPidTable [1]
      = Except.error (Csv.PlotErr.keyError "pid") := rfl

/-- Claim C5 (amended): beyond the loader's own errors, the post-load
pipeline fails exactly when the loaded table lacks a `pid` or `delay`
column, and every such failure is the corresponding `KeyError`; on
tables carrying both columns no later operation fails. -/
theorem claim5_post_load_errors (t : Csv.Table) (pids : List Int)
    (h : pids ≠ []) :
    (Csv.isOkE (Csv.program t pids) = true
      ↔ ("pid" ∈ t.header ∧ "delay" ∈ t.header)) ∧
    (∀ e : Csv.PlotErr, Csv.program t pids = Except.error e →
      e = Csv.PlotErr.keyError "pid" ∨ e = Csv.PlotErr.keyError "delay") :=
  ⟨Csv.program_ok_iff t pids h, Csv.program_err_key t pids⟩

/-- Concrete instantiation of the amended C5 on a table carrying both
columns. -/
theorem claim5_post_load_errors_witness :
    ([1] : List Int) ≠ [] ∧
    ((Csv.isOkE (Csv.program Csv.okTable [1]) = true
        ↔ ("pid" ∈ Csv.okTable.header ∧ "delay" ∈ Csv.okTable.header)) ∧
      (∀ e : Csv.PlotErr, Csv.program Csv.okTable [1] = Except.error e →
        e = Csv.PlotErr.keyError "pid" ∨ e = Csv.PlotErr.keyError "delay")) :=
  ⟨by decide, claim5_post_load_errors Csv.okTable [1] (by decide)⟩

/-- Claim C6: the two rendering modes are mutually exclusive and
selected by the `--cdf` flag — each pid's axes receives the distribution
routine exactly when `--cdf` is given, the raster routine exactly
otherwise, and never both. -/
theorem claim6_modes_exclusive (args : Args) (data : List Row) (p : Int) :
    ((do_plot args data p).isCdfRender = args.cdf) ∧
    ((do_plot args data p).isRasterRender = !args.cdf) ∧
    ¬((do_plot args data p).isCdfRender = true ∧
      (do_plot args data p).isRasterRender = true) := by
  cases hc : args.cdf <;>
    simp [do_plot, hc, AxisRender.isCdfRender, AxisRender.isRasterRender]

/-- Concrete instantiation of the mode dispatch. -/
theorem claim6_modes_exclusive_witness :
    ((do_plot sampleArgs sampleData 1).isCdfRender = sampleArgs.cdf) ∧
    ((do_plot sampleArgs sampleData 1).isRasterRender = !sampleArgs.cdf) ∧
    ¬((do_plot sampleArgs sampleData 1).isCdfRender = true ∧
      (do_plot sampleArgs sampleData 1).isRasterRender = true) :=
  claim6_modes_exclusive sampleArgs sampleData 1

/-- Claim C7: when `--xlim` (resp. `--ylim`) is given with value `n`,
every raster subplot's x-range (resp. y-range) is set to exactly
`[0, n]` — the lower bound is always 0 — and when a flag is absent the
corresponding axis is left to matplotlib's independent per-subplot
autoscaling. -/
theorem claim7_axis_limits (args : Args) (data : List Row) (p : Int) :
    (∀ n : Int, args.xlim = some n →
      (plot_plot args data p).xRange = AxisRange.fixed 0 n) ∧
    (∀ n : Int, args.ylim = some n →
      (plot_plot args data p).yRange = AxisRange.fixed 0 n) ∧
    (args.xlim = none → (plot_plot args data p).xRange = AxisRange.auto) ∧
    (args.ylim = none → (plot_plot args data p).yRange = AxisRange.auto) := by
  refine ⟨fun n hx => ?_, fun n hy => ?_, fun hx => ?_, fun hy => ?_⟩ <;>
    simp [plot_plot, limitRange, *]

/-- Concrete instantiation of the limit handling: both flags present,
and both flags absent. -/
theorem claim7_axis_limits_witness :
    (argsLim.xlim = some 10 ∧
      (plot_plot argsLim sampleData 1).xRange = AxisRange.fixed 0 10) ∧
    (argsLim.ylim = some 20 ∧
      (plot_plot argsLim sampleData 1).yRange = AxisRange.fixed 0 20) ∧
    (sampleArgs.xlim = none ∧
      (plot_plot sampleArgs sampleData 1).xRange = AxisRange.auto) ∧
    (sampleArgs.ylim = none ∧
      (plot_plot sampleArgs sampleData 1).yRange = AxisRange.auto) :=
  ⟨⟨rfl, (claim7_axis_limits argsLim sampleData 1).1 10 rfl⟩,
   ⟨rfl, (claim7_axis_limits argsLim sampleData 1).2.1 20 rfl⟩,
   ⟨rfl, (claim7_axis_limits sampleArgs sampleData 1).2.2.1 rfl⟩,
   ⟨rfl, (claim7_axis_limits sampleArgs sampleData 1).2.2.2 rfl⟩⟩

/-- Claim C8: in raster mode every subplot gets a title — the explicit
`--subtitle` string when that option is given, otherwise the default
`"pid=<value>"` built from that subplot's pid. -/
theorem claim8_raster_titles (args : Args) (data : List Row) (p : Int) :
    (∀ s : String, args.subtitle = some s → (plot_plot args data p).title = s) ∧
    (args.subtitle = none →
      (plot_plot args data p).title = "pid=" ++ toString p) := by
  constructor
  · intro s hs
    simp [plot_plot, hs]
  · intro hs
    simp [plot_plot, hs]

/-- Concrete instantiation of the title rule: explicit subtitle and
default title. -/
theorem claim8_raster_titles_witness :
    (argsLim.subtitle = some "srv" ∧
      (plot_plot argsLim sampleData 1).title = "srv") ∧
    (sampleArgs.subtitle = none ∧
      (plot_plot sampleArgs sampleData 1).title = "pid=" ++ toString (1 : Int)) :=
  ⟨⟨rfl, (claim8_raster_titles argsLim sampleData 1).1 "srv" rfl⟩,
   ⟨rfl, (claim8_raster_titles sampleArgs sampleData 1).2 rfl⟩⟩

/-- Claim C9: the figure is displayed interactively by default, a file
is written if and only if `--output` is given, at exactly the given
path, and when `--output` is given the save happens before the
interactive display. -/
theorem claim9_output_effects (output : Option String) :
    Effect.showFig ∈ outputEffects output ∧
    (∀ path : String,
      Effect.saveFig path ∈ outputEffects output ↔ output = some path) ∧
    (∀ path : String,
      outputEffects (some path) = [Effect.saveFig path, Effect.showFig]) ∧
    outputEffects none = [Effect.showFig] := by
  refine ⟨?_, ?_, fun path => rfl, rfl⟩
  · cases output <;> simp [outputEffects]
  · intro path
    cases output with
    | none => simp [outputEffects]
    | some q => simp [outputEffects, eq_comm]

/-- Concrete instantiation of the output contract at a given path. -/
theorem claim9_output_effects_witness :
    Effect.showFig ∈ outputEffects (some "out.png") ∧
    (∀ path : String,
      Effect.saveFig path ∈ outputEffects (some "out.png")
        ↔ (some "out.png" : Option String) = some path) ∧
    (∀ path : String,
      outputEffects (some path) = [Effect.saveFig path, Effect.showFig]) ∧
    outputEffects none = [Effect.showFig] :=
  claim9_output_effects (some "out.png")

/-- Claim C10: for every pid whose partition is nonempty, the cdf
series computed in `plot_cdf` is nondecreasing, every value lies in
(0, 1], its final value equals exactly 1, and the delay values it is
plotted against are strictly increasing. -/
theorem claim10_cdf_invariants (args : Args) (data : List Row) (p : Int)
    (h : pid_data data p ≠ []) :
    ((plot_cdf args data p).points.map Prod.snd).Sorted (· ≤ ·) ∧
    (∀ q ∈ (plot_cdf args data p).points.map Prod.snd, 0 < q ∧ q ≤ 1) ∧
    ((plot_cdf args data p).points.map Prod.snd).getLast? = some 1 ∧
    ((plot_cdf args data p).points.map Prod.fst).Sorted (· < ·) := by
  have hpt : (plot_cdf args data p).points = cdfSeries (pid_data data p) := rfl
  rw [hpt, cdfSeries_map_snd, cdfSeries_map_fst]
  have hpos := pdfVals_pos (pid_data data p) h
  refine ⟨?_, ?_, ?_, groupKeys_sorted_lt _⟩
  · exact List.Pairwise.imp (fun hab => le_of_lt hab)
      (cumsumFrom_sorted_lt 0 _ hpos)
  · intro q hq
    rw [cdfCol] at hq
    constructor
    · have := cumsumFrom_mem_gt 0 _ hpos q hq
      linarith
    · have := cumsumFrom_mem_le 0 _ hpos q hq
      rw [pdfVals_sum _ h] at this
      linarith
  · rw [cdfCol, cumsumFrom_getLast 0 _ (pdfVals_ne_nil _ h), pdfVals_sum _ h]
    norm_num

/-- Concrete instantiation of the cdf invariants on the sample data. -/
theorem claim10_cdf_invariants_witness :
    pid_data sampleData 1 ≠ [] ∧
    (((plot_cdf sampleArgs sampleData 1).points.map Prod.snd).Sorted (· ≤ ·) ∧
      (∀ q ∈ (plot_cdf sampleArgs sampleData 1).points.map Prod.snd,
        0 < q ∧ q ≤ 1) ∧
      ((plot_cdf sampleArgs sampleData 1).points.map Prod.snd).getLast? = some 1 ∧
      ((plot_cdf sampleArgs sampleData 1).points.map Prod.fst).Sorted (· < ·)) :=
  ⟨by decide, claim10_cdf_invariants sampleArgs sampleData 1 (by decide)⟩

end PlotLatency
